import Mathlib

/-!
# Verification of the `cofre` secrets vault (Go) against its specification

Shallow embedding of the repository's core (`crypto.go`, `vault.go`, the CLI
command handlers) in Lean 4.  Go byte slices are modelled as `List Nat`,
Go strings as Lean `String`, the single vault file as `Option (List Nat)`
(its content, or `none` when absent), and the secure random generator as an
explicit entropy pool `List Nat` that is consumed from the front (an
exhausted pool models an RNG failure).

External library functions (Argon2, AES-256-GCM, base64, `encoding/json`,
`crypto/rand`, the filesystem) are not repository code; they are modelled as
idealized deterministic primitives that satisfy exactly the contracts the
specification assigns to them (deterministic KDF, AEAD whose decryption
succeeds only for the triple that produced the ciphertext, injective codecs
with decoders inverting encoders).  Every function of the repository itself
(`DeriveKey`, `GenerateSalt`, `Encrypt`, `Decrypt`, `LoadVault`, `SaveVault`,
`CreateVault`, `cmdInit`, `cmdSet`, `cmdDelete`) is translated step by step
from the Go source.
-/

/-- Error kinds, one per `fmt.Errorf` site of the source (plus the CLI's
fatal-exit messages).  `decryptFailed` is the spec's `AuthenticationFailed`;
`parseVaultFailed` is the spec's `EnvelopeCorrupt`. -/
inductive ErrKind where
  | readFailed          -- "failed to read vault file"
  | parseVaultFailed    -- "failed to parse vault file"
  | decodeSaltFailed    -- "failed to decode salt"
  | decodeNonceFailed   -- "failed to decode nonce"
  | decodeDataFailed    -- "failed to decode data"
  | decryptFailed       -- "failed to decrypt vault (wrong password?)"
  | parseSecretsFailed  -- "failed to parse secrets"
  | randFailed          -- "failed to generate salt/nonce"
  | cipherInitFailed    -- "failed to create cipher"
  | vaultExists         -- cmdInit: "vault already exists"
  | vaultMissing        -- "vault does not exist"
  | notFound            -- "secret '%s' not found"
  | passwordTooShort    -- "password must be at least 8 characters"
  | passwordMismatch    -- "passwords do not match"
deriving DecidableEq

/-- Outcome of a Go computation: a normal value, a returned `error`, or a
runtime Go `panic` (`aborted`), which kills the process and is distinct from
a returned error. -/
inductive GoOut (α : Type) where
  | ok : α → GoOut α
  | err : ErrKind → GoOut α
  | aborted : GoOut α
deriving DecidableEq

/-- The in-memory secret mapping `map[string]string` of `SecretsData`,
modelled as its list of entries. -/
abbrev Secrets := List (String × String)

/-- Content of the single vault file at the fixed path
`~/.secrets-vault.json`: `none` when the file is absent. -/
abbrev FileState := Option (List Nat)

/-- Constants of `crypto.go`. -/
def SaltSize : Nat := 16

/-- Nonce length of AES-GCM, `crypto.go`. -/
def NonceSize : Nat := 12

/-- Derived-key length, `crypto.go`. -/
def KeySize : Nat := 32

/-- Argon2 time cost, `crypto.go`. -/
def ArgonTime : Nat := 1

/-- Argon2 memory cost in KiB (64 MiB), `crypto.go`. -/
def ArgonMem : Nat := 64 * 1024

/-- Argon2 parallelism, `crypto.go`. -/
def ArgonThreads : Nat := 4

/-- Bytes of a Go string (the model takes code points as bytes). -/
def strBytes (s : String) : List Nat := s.data.map Char.toNat

/-- Inverse of `strBytes` on its range. -/
def bytesStr (l : List Nat) : String := String.mk (l.map Char.ofNat)

/-- Injective packing of a string into one number (base `2^32 + 1` digits
`c.toNat + 1`); used by the idealized KDF model below. -/
def encodeStr (s : String) : Nat :=
  s.data.foldr (fun c acc => (c.toNat + 1) + 4294967297 * acc) 0

/-- Model of the external library `golang.org/x/crypto/argon2.IDKey`:
an idealized memory-hard KDF, deterministic in all of its arguments,
collision-free in the password and (up to `keyLen - 1` bytes) in the salt,
producing exactly `keyLen` bytes.  The cost parameters are mixed into the
first cell so that different parameter sets yield different keys. -/
def argon2IDKey (password : String) (salt : List Nat)
    (time memory threads keyLen : Nat) : List Nat :=
  if keyLen = 0 then []
  else
    Nat.pair (encodeStr password) (Nat.pair time (Nat.pair memory threads))
      :: (salt.take (keyLen - 1)
          ++ List.replicate ((keyLen - 1) - (salt.take (keyLen - 1)).length) 0)

/-- Function `DeriveKey` of `crypto.go`: Argon2id with the package constants. -/
def DeriveKey (password : String) (salt : List Nat) : List Nat :=
  argon2IDKey password salt ArgonTime ArgonMem ArgonThreads KeySize

/-- Model of `crypto/rand.Read` filling a buffer of `n` bytes: consume `n`
bytes from the entropy pool; an exhausted pool is the RNG-failure case. -/
def randRead (n : Nat) (ent : List Nat) : Option (List Nat × List Nat) :=
  if n ≤ ent.length then some (ent.take n, ent.drop n) else none

/-- Function `GenerateSalt` of `crypto.go`: 16 random bytes, or the wrapped RNG error. -/
def GenerateSalt (ent : List Nat) : GoOut (List Nat × List Nat) :=
  match randRead SaltSize ent with
  | some (salt, entRest) => .ok (salt, entRest)
  | none => .err .randFailed

/-- Model of the external AES-256-GCM `Seal`: an idealized AEAD ciphertext
that binds the plaintext, the key and the nonce (the plaintext appears
twice, so that any single-position change is detectable, mirroring the
16-byte authentication tag of real GCM). -/
def gcmSeal (key nonce plaintext : List Nat) : List Nat :=
  plaintext ++ (plaintext ++ (key ++ nonce))

/-- Model of the external AES-256-GCM `Open`: Go panics when the nonce length
differs from the fixed GCM nonce size (modelled as `aborted`); otherwise the
tag verifies exactly when the ciphertext is the seal of its plaintext part
under the given key and nonce. -/
def gcmOpen (ciphertext nonce key : List Nat) : GoOut (List Nat) :=
  if nonce.length = NonceSize then
    if ciphertext = gcmSeal key nonce
        (ciphertext.take ((ciphertext.length - (key.length + nonce.length)) / 2)) then
      .ok (ciphertext.take ((ciphertext.length - (key.length + nonce.length)) / 2))
    else .err .decryptFailed
  else .aborted

/-- Function `Encrypt` of `crypto.go`: `aes.NewCipher` (fails unless the key has
16/24/32 bytes), `cipher.NewGCM` (never fails for AES), a fresh 12-byte
random nonce, then `gcm.Seal`.  Returns `((nonce, ciphertext), entRest)`. -/
def Encrypt (plaintext key : List Nat) (ent : List Nat) :
    GoOut ((List Nat × List Nat) × List Nat) :=
  if key.length = 16 ∨ key.length = 24 ∨ key.length = 32 then
    match randRead NonceSize ent with
    | some (nonce, entRest) => .ok ((nonce, gcmSeal key nonce plaintext), entRest)
    | none => .err .randFailed
  else .err .cipherInitFailed

/-- Function `Decrypt` of `crypto.go`: `aes.NewCipher`, `cipher.NewGCM`, `gcm.Open`. -/
def Decrypt (ciphertext nonce key : List Nat) : GoOut (List Nat) :=
  if key.length = 16 ∨ key.length = 24 ∨ key.length = 32 then
    gcmOpen ciphertext nonce key
  else .err .cipherInitFailed

/-- Model of the external `base64.StdEncoding.EncodeToString`: an injective
byte-level codec (offsetting into the printable range stands in for the
base64 alphabet). -/
def b64encode (l : List Nat) : List Nat := l.map (fun b => b + 65)

/-- Model of `base64.StdEncoding.DecodeString`: inverts `b64encode` and
rejects byte sequences outside its range. -/
def b64decode (l : List Nat) : Option (List Nat) :=
  if l.all (fun c => 65 ≤ c) then some (l.map (fun c => c - 65)) else none

/-- The `VaultFile` struct of `vault.go` (fields hold the base64 strings,
modelled as their bytes). -/
structure VaultFile where
  version : Nat
  salt : List Nat
  nonce : List Nat
  data : List Nat
deriving DecidableEq

/-- Length-prefixed framing of one field, used by the JSON codec models. -/
def encField (l : List Nat) : List Nat := l.length :: l

/-- Reads one length-prefixed field. -/
def parseField (l : List Nat) : Option (List Nat × List Nat) :=
  match l with
  | [] => none
  | n :: rest =>
      if n ≤ rest.length then some (rest.take n, rest.drop n) else none

/-- Model of `json.MarshalIndent` on `VaultFile`: an injective rendering of
the four fields. -/
def marshalVaultFile (v : VaultFile) : List Nat :=
  v.version :: (encField v.salt ++ encField v.nonce ++ encField v.data)

/-- Model of `json.Unmarshal` into `VaultFile`: inverts `marshalVaultFile`
and rejects anything else (the spec's `EnvelopeCorrupt` case). -/
def unmarshalVaultFile (l : List Nat) : Option VaultFile :=
  match l with
  | [] => none
  | ver :: rest =>
      match parseField rest with
      | none => none
      | some (s, r1) =>
          match parseField r1 with
          | none => none
          | some (n, r2) =>
              match parseField r2 with
              | none => none
              | some (d, r3) =>
                  if r3 = [] then some ⟨ver, s, n, d⟩ else none

/-- Entry list rendering used by `marshalSecrets`. -/
def encEntries : Secrets → List Nat
  | [] => []
  | (k, v) :: rest =>
      encField (strBytes k) ++ encField (strBytes v) ++ encEntries rest

/-- Model of `json.Marshal` on `SecretsData` (a `map[string]string` never
fails to serialize): an injective rendering of the entry list. -/
def marshalSecrets (m : Secrets) : List Nat := m.length :: encEntries m

/-- Reads back `count` entries. -/
def parseEntries : Nat → List Nat → Option (Secrets × List Nat)
  | 0, rest => some ([], rest)
  | Nat.succ c, rest =>
      match parseField rest with
      | none => none
      | some (kb, r1) =>
          match parseField r1 with
          | none => none
          | some (vb, r2) =>
              match parseEntries c r2 with
              | none => none
              | some (es, r3) => some ((bytesStr kb, bytesStr vb) :: es, r3)

/-- Model of `json.Unmarshal` into `SecretsData`. -/
def unmarshalSecrets (l : List Nat) : Option Secrets :=
  match l with
  | [] => none
  | c :: rest =>
      match parseEntries c rest with
      | none => none
      | some (es, r) => if r = [] then some es else none

/-- Function `VaultExists` of `vault.go`: `os.Stat` on the fixed path. -/
def VaultExists (fs : FileState) : Bool := fs.isSome

/-- Function `LoadVault` of `vault.go`, step by step: read file, parse envelope,
base64-decode the three fields, derive the key, decrypt, parse secrets.
Returns the mapping together with the decoded salt.  A load never changes
the file, so no new `FileState` is returned. -/
def LoadVault (password : String) (fs : FileState) : GoOut (Secrets × List Nat) :=
  match fs with
  | none => .err .readFailed
  | some fileData =>
      match unmarshalVaultFile fileData with
      | none => .err .parseVaultFailed
      | some vault =>
          match b64decode vault.salt with
          | none => .err .decodeSaltFailed
          | some salt =>
              match b64decode vault.nonce with
              | none => .err .decodeNonceFailed
              | some nonce =>
                  match b64decode vault.data with
                  | none => .err .decodeDataFailed
                  | some ciphertext =>
                      match Decrypt ciphertext nonce (DeriveKey password salt) with
                      | .aborted => .aborted
                      | .err _ => .err .decryptFailed
                      | .ok plaintext =>
                          match unmarshalSecrets plaintext with
                          | none => .err .parseSecretsFailed
                          | some secrets => .ok (secrets, salt)

/-- Function `SaveVault` of `vault.go`: marshal the secrets, derive the key, encrypt
with a fresh nonce, assemble the version-1 envelope, marshal it and write it
with `os.WriteFile` directly at the vault path.  On the error paths the
write is never reached, so the file keeps its previous content.  The `ok`
value is the remaining entropy pool. -/
def SaveVault (data : Secrets) (password : String) (salt : List Nat)
    (ent : List Nat) (fs : FileState) : GoOut (List Nat) × FileState :=
  let plaintext := marshalSecrets data
  let key := DeriveKey password salt
  match Encrypt plaintext key ent with
  | .ok ((nonce, ciphertext), entRest) =>
      let vault : VaultFile :=
        ⟨1, b64encode salt, b64encode nonce, b64encode ciphertext⟩
      (.ok entRest, some (marshalVaultFile vault))
  | .err e => (.err e, fs)
  | .aborted => (.aborted, fs)

/-- Intermediate observable contents of the vault file during
`os.WriteFile(path, data, 0600)`: the file is opened with `O_TRUNC` and the
bytes are written in place, so the content passes through every prefix of
`data` (index 0 is the freshly truncated empty file, the last entry is the
completed write). -/
def writeFileStates (data : List Nat) : List FileState :=
  (List.range (data.length + 1)).map (fun k => some (data.take k))

/-- Trace semantics of `SaveVault`: the sequence of observable vault-file
contents, starting from the prior state.  On the error paths the write is
never attempted; on the success path `os.WriteFile` rewrites the real path
in place (there is no temporary file and no rename in `vault.go`). -/
def SaveVaultTrace (data : Secrets) (password : String) (salt : List Nat)
    (ent : List Nat) (fs : FileState) : List FileState :=
  let plaintext := marshalSecrets data
  let key := DeriveKey password salt
  match Encrypt plaintext key ent with
  | .ok ((nonce, ciphertext), _) =>
      let vault : VaultFile :=
        ⟨1, b64encode salt, b64encode nonce, b64encode ciphertext⟩
      fs :: writeFileStates (marshalVaultFile vault)
  | _ => [fs]

/-- Function `CreateVault` of `vault.go`: fresh salt, empty mapping, then `SaveVault`.
There is no existence check here — the only check lives in the CLI caller. -/
def CreateVault (password : String) (ent : List Nat) (fs : FileState) :
    GoOut (List Nat) × FileState :=
  match GenerateSalt ent with
  | .ok (salt, entRest) => SaveVault [] password salt entRest fs
  | .err e => (.err e, fs)
  | .aborted => (.aborted, fs)

/-- Go map lookup `m[key]` on the entry-list model. -/
def lookupEntry : Secrets → String → Option String
  | [], _ => none
  | (k, v) :: rest, key => if k = key then some v else lookupEntry rest key

/-- Go map assignment `m[key] = value`: replace the existing entry or add a
new one. -/
def setEntry : Secrets → String → String → Secrets
  | [], key, value => [(key, value)]
  | (k, v) :: rest, key, value =>
      if k = key then (key, value) :: rest else (k, v) :: setEntry rest key value

/-- Go `delete(m, key)`. -/
def removeEntry (m : Secrets) (key : String) : Secrets :=
  m.filter (fun e => e.1 ≠ key)

/-- Function `cmdInit` of `main.go`: refuse when a vault exists, enforce the password
rules, then `CreateVault`.  The two interactive password reads are passed as
arguments. -/
def cmdInit (password confirm : String) (ent : List Nat) (fs : FileState) :
    GoOut (List Nat) × FileState :=
  if VaultExists fs then (.err .vaultExists, fs)
  else if password.length < 8 then (.err .passwordTooShort, fs)
  else if password ≠ confirm then (.err .passwordMismatch, fs)
  else CreateVault password ent fs

/-- Function `cmdSet` of `main.go`: existence check, load, assign (any key the CLI
passed, with no validation), save. -/
def cmdSet (key : String) (password value : String) (ent : List Nat)
    (fs : FileState) : GoOut (List Nat) × FileState :=
  if VaultExists fs then
    match LoadVault password fs with
    | .ok (data, salt) => SaveVault (setEntry data key value) password salt ent fs
    | .err e => (.err e, fs)
    | .aborted => (.aborted, fs)
  else (.err .vaultMissing, fs)

/-- Function `cmdDelete` of `main.go`: existence check, load, fail with the not-found
message when the key is absent (before any mutation or save), else delete
and save. -/
def cmdDelete (key : String) (password : String) (ent : List Nat)
    (fs : FileState) : GoOut (List Nat) × FileState :=
  if VaultExists fs then
    match LoadVault password fs with
    | .ok (data, salt) =>
        if lookupEntry data key = none then (.err .notFound, fs)
        else SaveVault (removeEntry data key) password salt ent fs
    | .err e => (.err e, fs)
    | .aborted => (.aborted, fs)
  else (.err .vaultMissing, fs)

/-- The envelope a successful `SaveVault data password salt …` writes, with
`nonce` the 12 bytes drawn from the pool. -/
def mkEnv (data : Secrets) (password : String) (salt nonce : List Nat) :
    VaultFile :=
  ⟨1, b64encode salt, b64encode nonce,
    b64encode (gcmSeal (DeriveKey password salt) nonce (marshalSecrets data))⟩

/-- Flips bit `i` of byte `j` of a byte sequence. -/
def flipByte (l : List Nat) (j i : Nat) : List Nat :=
  l.set j (Nat.xor (l.getD j 0) (2 ^ i))

/-- The vault file with bit `i` of byte `j` of its stored (decoded) salt
field flipped; any file that does not parse is returned unchanged. -/
def flipSaltField (f : List Nat) (j i : Nat) : List Nat :=
  match unmarshalVaultFile f with
  | none => f
  | some v =>
      match b64decode v.salt with
      | none => f
      | some s =>
          marshalVaultFile ⟨v.version, b64encode (flipByte s j i), v.nonce, v.data⟩

/-- The vault file with bit `i` of byte `j` of its stored nonce field
flipped. -/
def flipNonceField (f : List Nat) (j i : Nat) : List Nat :=
  match unmarshalVaultFile f with
  | none => f
  | some v =>
      match b64decode v.nonce with
      | none => f
      | some n =>
          marshalVaultFile ⟨v.version, v.salt, b64encode (flipByte n j i), v.data⟩

/-- The vault file with bit `i` of byte `j` of its stored ciphertext (`data`)
field flipped. -/
def flipDataField (f : List Nat) (j i : Nat) : List Nat :=
  match unmarshalVaultFile f with
  | none => f
  | some v =>
      match b64decode v.data with
      | none => f
      | some d =>
          marshalVaultFile ⟨v.version, v.salt, v.nonce, b64encode (flipByte d j i)⟩

/-- Concrete password used by witness theorems. -/
def pwW : String := "password123"

/-- Concrete mapping used by witness theorems. -/
def mW : Secrets := [("api_key", "xyz123")]

/-- Concrete 16-byte salt used by witness theorems. -/
def saltW : List Nat := List.range 16

/-- Concrete 12-byte entropy pool used by witness theorems. -/
def entW : List Nat := (List.range 12).map (fun k => k + 30)

/-- A second, different concrete entropy pool. -/
def entW2 : List Nat := (List.range 12).map (fun k => k + 50)

/-- The envelope file written by a save of `mW` under `pwW`, `saltW`, `entW`. -/
def fW : List Nat := marshalVaultFile (mkEnv mW pwW saltW (entW.take 12))

/-- A vault-file state holding an empty mapping under `pwW`. -/
def fsW : FileState := some (marshalVaultFile (mkEnv [] pwW saltW (entW.take 12)))

/-- A vault-file state holding `mW` under `pwW`. -/
def fsW1 : FileState := some fW

/-! ## List helpers -/

theorem getD_append_lt (l r : List Nat) (j : Nat) (h : j < l.length) :
    (l ++ r).getD j 0 = l.getD j 0 := by
  simp [List.getD_eq_getElem?_getD, List.getElem?_append_left h]

theorem getD_append_ge (l r : List Nat) (j : Nat) (h : l.length ≤ j) :
    (l ++ r).getD j 0 = r.getD (j - l.length) 0 := by
  simp [List.getD_eq_getElem?_getD, List.getElem?_append_right h]

theorem getD_set_self (l : List Nat) (j v : Nat) (h : j < l.length) :
    (l.set j v).getD j 0 = v := by
  simp [List.getD_eq_getElem?_getD, List.getElem?_set_self, h]

theorem take_set_of_ge (l : List Nat) (j v n : Nat) (h : n ≤ j) :
    (l.set j v).take n = l.take n := by
  induction l generalizing j n with
  | nil => simp
  | cons a t ih =>
    cases j with
    | zero =>
      have hn : n = 0 := by omega
      subst hn; simp
    | succ j2 =>
      cases n with
      | zero => simp
      | succ n2 =>
        show a :: (t.set j2 v).take n2 = a :: t.take n2
        exact congrArg (List.cons a) (ih j2 n2 (by omega))

theorem set_append_lt (l r : List Nat) (j v : Nat) (h : j < l.length) :
    (l ++ r).set j v = l.set j v ++ r := by
  induction l generalizing j with
  | nil => simp at h
  | cons a t ih =>
    cases j with
    | zero => rfl
    | succ j2 =>
      show a :: (t ++ r).set j2 v = a :: (t.set j2 v ++ r)
      exact congrArg (List.cons a) (ih j2 (by simpa using h))

theorem flipByte_length (l : List Nat) (j i : Nat) :
    (flipByte l j i).length = l.length := List.length_set l j _

theorem xor_pow_ne (a i : Nat) : Nat.xor a (2 ^ i) ≠ a := by
  intro h
  have h2 : a ^^^ (a ^^^ 2 ^ i) = a ^^^ a := congrArg (a ^^^ ·) h
  rw [Nat.xor_cancel_left, Nat.xor_self] at h2
  exact absurd h2 (by positivity)

theorem flipByte_ne (l : List Nat) (j i : Nat) (h : j < l.length) :
    flipByte l j i ≠ l := by
  intro heq
  have h2 : (flipByte l j i).getD j 0 = l.getD j 0 := by rw [heq]
  rw [flipByte, getD_set_self l j _ h] at h2
  exact xor_pow_ne (l.getD j 0) i h2

/-! ## String and codec round-trips -/

theorem map_ofNat_toNat (l : List Char) :
    l.map (fun c => Char.ofNat c.toNat) = l := by
  induction l with
  | nil => rfl
  | cons a t ih => simp [ih, Char.ofNat_toNat]

theorem bytesStr_strBytes (s : String) : bytesStr (strBytes s) = s := by
  cases s with
  | mk l =>
    show String.mk ((l.map Char.toNat).map Char.ofNat) = String.mk l
    rw [List.map_map]
    exact congrArg String.mk (map_ofNat_toNat l)

theorem char_toNat_lt (c : Char) : c.toNat < 4294967296 := c.val.val.isLt

theorem encodeChars_inj (l1 l2 : List Char)
    (h : l1.foldr (fun c acc => (c.toNat + 1) + 4294967297 * acc) 0
       = l2.foldr (fun c acc => (c.toNat + 1) + 4294967297 * acc) 0) :
    l1 = l2 := by
  induction l1 generalizing l2 with
  | nil =>
    cases l2 with
    | nil => rfl
    | cons b t2 => simp only [List.foldr] at h; omega
  | cons a t1 ih =>
    cases l2 with
    | nil => simp only [List.foldr] at h; omega
    | cons b t2 =>
      simp only [List.foldr] at h
      have ha := char_toNat_lt a
      have hb := char_toNat_lt b
      have heq : a.toNat = b.toNat ∧
          t1.foldr (fun c acc => (c.toNat + 1) + 4294967297 * acc) 0
            = t2.foldr (fun c acc => (c.toNat + 1) + 4294967297 * acc) 0 := by
        constructor <;> omega
      rw [ih t2 heq.2]
      exact congrArg (fun c => List.cons c t2) (Char.ext (UInt32.ext heq.1))

theorem encodeStr_inj (s t : String) (h : encodeStr s = encodeStr t) : s = t :=
  String.ext (encodeChars_inj s.data t.data h)

theorem b64decode_b64encode (l : List Nat) : b64decode (b64encode l) = some l := by
  rw [b64encode, b64decode, if_pos (by simp [List.all_eq_true])]
  congr 1
  rw [List.map_map]
  induction l with
  | nil => rfl
  | cons a t ih => simpa using ih

theorem b64encode_inj (l1 l2 : List Nat) (h : b64encode l1 = b64encode l2) :
    l1 = l2 := by
  have h2 := congrArg b64decode h
  rw [b64decode_b64encode, b64decode_b64encode] at h2
  exact Option.some.inj h2

theorem parseField_encField (l rest : List Nat) :
    parseField (encField l ++ rest) = some (l, rest) := by
  show parseField (l.length :: (l ++ rest)) = some (l, rest)
  rw [parseField, if_pos (by simp)]
  rw [List.take_left, List.drop_left]

theorem unmarshal_marshalVaultFile (v : VaultFile) :
    unmarshalVaultFile (marshalVaultFile v) = some v := by
  have h3 : parseField (encField v.data) = some (v.data, []) := by
    rw [← List.append_nil (encField v.data)]
    exact parseField_encField _ _
  simp only [marshalVaultFile, unmarshalVaultFile, List.append_assoc,
    parseField_encField, h3]
  simp

theorem parseEntries_encEntries (m : Secrets) (rest : List Nat) :
    parseEntries m.length (encEntries m ++ rest) = some (m, rest) := by
  induction m generalizing rest with
  | nil => simp [encEntries, parseEntries]
  | cons e t ih =>
    obtain ⟨k, v⟩ := e
    show parseEntries (t.length + 1)
        ((encField (strBytes k) ++ encField (strBytes v) ++ encEntries t) ++ rest)
      = some ((k, v) :: t, rest)
    simp only [parseEntries, List.append_assoc, parseField_encField, ih rest,
      bytesStr_strBytes]

theorem unmarshalSecrets_marshalSecrets (m : Secrets) :
    unmarshalSecrets (marshalSecrets m) = some m := by
  have h := parseEntries_encEntries m []
  rw [List.append_nil] at h
  simp only [marshalSecrets, unmarshalSecrets, h]
  simp

/-! ## KDF lemmas -/

theorem length_DeriveKey (pw : String) (salt : List Nat) :
    (DeriveKey pw salt).length = 32 := by
  rw [DeriveKey, argon2IDKey, if_neg (by decide : ¬ KeySize = 0)]
  simp only [List.length_cons, List.length_append, List.length_replicate,
    List.length_take, KeySize]
  omega

theorem DeriveKey_password_ne (pw1 pw2 : String) (s1 s2 : List Nat)
    (h : pw1 ≠ pw2) : DeriveKey pw1 s1 ≠ DeriveKey pw2 s2 := by
  intro heq
  rw [DeriveKey, DeriveKey, argon2IDKey, argon2IDKey,
    if_neg (by decide : ¬ KeySize = 0), if_neg (by decide : ¬ KeySize = 0)] at heq
  injection heq with h1 h2
  have h3 := (Nat.pair_eq_pair.mp h1).1
  exact h (encodeStr_inj pw1 pw2 h3)

theorem DeriveKey_salt_ne (pw : String) (s1 s2 : List Nat)
    (hlen : s1.length = s2.length) (hle : s1.length ≤ 31) (hne : s1 ≠ s2) :
    DeriveKey pw s1 ≠ DeriveKey pw s2 := by
  intro heq
  rw [DeriveKey, DeriveKey, argon2IDKey, argon2IDKey,
    if_neg (by decide : ¬ KeySize = 0), if_neg (by decide : ¬ KeySize = 0)] at heq
  injection heq with h1 h2
  have ht1 : s1.take (KeySize - 1) = s1 :=
    List.take_of_length_le (by simp [KeySize]; omega)
  have ht2 : s2.take (KeySize - 1) = s2 :=
    List.take_of_length_le (by simp [KeySize]; omega)
  rw [ht1, ht2] at h2
  exact hne (List.append_inj h2 hlen).1

/-! ## AEAD lemmas -/

theorem length_gcmSeal (k n p : List Nat) :
    (gcmSeal k n p).length = p.length + p.length + k.length + n.length := by
  simp [gcmSeal]
  omega

theorem gcmSeal_take (k n p : List Nat) : (gcmSeal k n p).take p.length = p := by
  rw [gcmSeal, List.take_left]

theorem gcmOpen_gcmSeal (k n p : List Nat) (hk : k.length = 32)
    (hn : n.length = 12) : gcmOpen (gcmSeal k n p) n k = .ok p := by
  have hidx : ((gcmSeal k n p).length - (k.length + n.length)) / 2 = p.length := by
    rw [length_gcmSeal, hk, hn]; omega
  rw [gcmOpen, if_pos (by simp [NonceSize, hn]), hidx, gcmSeal_take, if_pos rfl]

theorem gcmOpen_wrong_key (k k2 n p : List Nat) (hk : k.length = 32)
    (hk2 : k2.length = 32) (hne : k2 ≠ k) (hn : n.length = 12) :
    gcmOpen (gcmSeal k n p) n k2 = .err .decryptFailed := by
  have hidx : ((gcmSeal k n p).length - (k2.length + n.length)) / 2 = p.length := by
    rw [length_gcmSeal, hk, hk2, hn]; omega
  rw [gcmOpen, if_pos (by simp [NonceSize, hn]), hidx, gcmSeal_take, if_neg]
  intro heq
  rw [gcmSeal, gcmSeal] at heq
  have h2 := List.append_cancel_left (List.append_cancel_left heq)
  exact hne (List.append_cancel_right h2).symm

theorem gcmOpen_wrong_nonce (k n n2 p : List Nat) (hk : k.length = 32)
    (hn : n.length = 12) (hn2 : n2.length = 12) (hne : n2 ≠ n) :
    gcmOpen (gcmSeal k n p) n2 k = .err .decryptFailed := by
  have hidx : ((gcmSeal k n p).length - (k.length + n2.length)) / 2 = p.length := by
    rw [length_gcmSeal, hk, hn, hn2]; omega
  rw [gcmOpen, if_pos (by simp [NonceSize, hn2]), hidx, gcmSeal_take, if_neg]
  intro heq
  rw [gcmSeal, gcmSeal] at heq
  have h2 := List.append_cancel_left (List.append_cancel_left heq)
  exact hne (List.append_cancel_left h2).symm

theorem gcmOpen_flip (k n p : List Nat) (j i : Nat) (hk : k.length = 32)
    (hn : n.length = 12) (hj : j < (gcmSeal k n p).length) :
    gcmOpen (flipByte (gcmSeal k n p) j i) n k = .err .decryptFailed := by
  have hlen2 : (flipByte (gcmSeal k n p) j i).length = (gcmSeal k n p).length :=
    flipByte_length _ j i
  have hidx : ((flipByte (gcmSeal k n p) j i).length - (k.length + n.length)) / 2
      = p.length := by
    rw [hlen2, length_gcmSeal, hk, hn]; omega
  rw [gcmOpen, if_pos (by simp [NonceSize, hn]), hidx, if_neg]
  intro heq
  by_cases hc : p.length ≤ j
  · have hq : (flipByte (gcmSeal k n p) j i).take p.length = p := by
      rw [flipByte, take_set_of_ge _ _ _ _ hc, gcmSeal_take]
    rw [hq] at heq
    exact flipByte_ne (gcmSeal k n p) j i hj heq
  · push_neg at hc
    have hv : (gcmSeal k n p).getD j 0 = p.getD j 0 := by
      rw [gcmSeal]; exact getD_append_lt _ _ _ hc
    have hsplit : flipByte (gcmSeal k n p) j i
        = (p.set j (Nat.xor ((gcmSeal k n p).getD j 0) (2 ^ i))) ++ (p ++ (k ++ n)) := by
      rw [flipByte]
      conv_lhs => rw [gcmSeal]
      exact set_append_lt _ _ _ _ hc
    have hq : (flipByte (gcmSeal k n p) j i).take p.length
        = p.set j (Nat.xor ((gcmSeal k n p).getD j 0) (2 ^ i)) := by
      rw [hsplit]
      have hls : (p.set j (Nat.xor ((gcmSeal k n p).getD j 0) (2 ^ i))).length
          = p.length := List.length_set _ _ _
      rw [← hls, List.take_left]
    rw [hq] at heq
    have hL : (flipByte (gcmSeal k n p) j i).getD (p.length + j) 0 = p.getD j 0 := by
      rw [hsplit, getD_append_ge _ _ _ (by rw [List.length_set]; omega)]
      rw [List.length_set]
      have hjj : p.length + j - p.length = j := by omega
      rw [hjj]
      exact getD_append_lt _ _ _ hc
    have hR : (flipByte (gcmSeal k n p) j i).getD (p.length + j) 0
        = Nat.xor ((gcmSeal k n p).getD j 0) (2 ^ i) := by
      rw [heq, gcmSeal, getD_append_ge _ _ _ (by rw [List.length_set]; omega)]
      rw [List.length_set]
      have hjj : p.length + j - p.length = j := by omega
      rw [hjj, getD_append_lt _ _ _ (by rw [List.length_set]; exact hc)]
      exact getD_set_self _ _ _ hc
    rw [hv] at hR
    exact xor_pow_ne (p.getD j 0) i (hL.symm.trans hR).symm

/-! ## Vault-operation reduction lemmas -/

theorem Encrypt_eq (p : List Nat) (pw : String) (salt ent : List Nat)
    (he : 12 ≤ ent.length) :
    Encrypt p (DeriveKey pw salt) ent
      = .ok ((ent.take 12, gcmSeal (DeriveKey pw salt) (ent.take 12) p),
          ent.drop 12) := by
  have hk := length_DeriveKey pw salt
  simp [Encrypt, randRead, hk, NonceSize, he]

theorem SaveVault_eq (m : Secrets) (pw : String) (salt ent : List Nat)
    (fs : FileState) (he : 12 ≤ ent.length) :
    SaveVault m pw salt ent fs
      = (.ok (ent.drop 12),
          some (marshalVaultFile (mkEnv m pw salt (ent.take 12)))) := by
  simp [SaveVault, Encrypt_eq (marshalSecrets m) pw salt ent he, mkEnv]

theorem SaveVault_err (m : Secrets) (pw : String) (salt ent : List Nat)
    (fs : FileState) (he : ent.length < 12) :
    SaveVault m pw salt ent fs = (.err .randFailed, fs) := by
  have hk := length_DeriveKey pw salt
  have hn : ¬ NonceSize ≤ ent.length := by simp [NonceSize]; omega
  simp [SaveVault, Encrypt, randRead, hk, hn]

theorem SaveVaultTrace_eq (m : Secrets) (pw : String) (salt ent : List Nat)
    (fs : FileState) (he : 12 ≤ ent.length) :
    SaveVaultTrace m pw salt ent fs
      = fs :: writeFileStates (marshalVaultFile (mkEnv m pw salt (ent.take 12))) := by
  simp [SaveVaultTrace, Encrypt_eq (marshalSecrets m) pw salt ent he, mkEnv]

theorem SaveVaultTrace_err (m : Secrets) (pw : String) (salt ent : List Nat)
    (fs : FileState) (he : ent.length < 12) :
    SaveVaultTrace m pw salt ent fs = [fs] := by
  have hk := length_DeriveKey pw salt
  have hn : ¬ NonceSize ≤ ent.length := by simp [NonceSize]; omega
  simp [SaveVaultTrace, Encrypt, randRead, hk, hn]

theorem LoadVault_env (pw : String) (ver : Nat) (s n c : List Nat) :
    LoadVault pw (some (marshalVaultFile ⟨ver, b64encode s, b64encode n, b64encode c⟩))
      = match gcmOpen c n (DeriveKey pw s) with
        | .aborted => .aborted
        | .err _ => .err .decryptFailed
        | .ok plaintext =>
            match unmarshalSecrets plaintext with
            | none => .err .parseSecretsFailed
            | some secrets => .ok (secrets, s) := by
  have hk := length_DeriveKey pw s
  cases hg : gcmOpen c n (DeriveKey pw s) with
  | ok pt =>
      simp [LoadVault, unmarshal_marshalVaultFile, b64decode_b64encode, Decrypt, hk, hg]
  | err e =>
      simp [LoadVault, unmarshal_marshalVaultFile, b64decode_b64encode, Decrypt, hk, hg]
  | aborted =>
      simp [LoadVault, unmarshal_marshalVaultFile, b64decode_b64encode, Decrypt, hk, hg]

theorem LoadVault_mkEnv (m : Secrets) (pw : String) (salt nonce : List Nat)
    (hn : nonce.length = 12) :
    LoadVault pw (some (marshalVaultFile (mkEnv m pw salt nonce))) = .ok (m, salt) := by
  rw [mkEnv, LoadVault_env]
  rw [gcmOpen_gcmSeal _ _ _ (length_DeriveKey pw salt) hn]
  simp [unmarshalSecrets_marshalSecrets]

theorem lookupEntry_setEntry (m : Secrets) (k v : String) :
    lookupEntry (setEntry m k v) k = some v := by
  induction m with
  | nil => simp [setEntry, lookupEntry]
  | cons e t ih =>
    obtain ⟨k2, v2⟩ := e
    by_cases h : k2 = k
    · simp [setEntry, h, lookupEntry]
    · simp [setEntry, h, lookupEntry, ih]

/-! ## Claim theorems -/

/-- C3: Round-trip — for every secret mapping (including the empty one),
every password and every 16-byte salt, `SaveVault` followed by `LoadVault`
with the same password on the resulting file returns exactly the mapping
and the same salt. -/
theorem c3_save_load_roundtrip (m : Secrets) (pw : String) (salt ent : List Nat)
    (fs : FileState) (hs : salt.length = 16) (he : 12 ≤ ent.length) :
    LoadVault pw (SaveVault m pw salt ent fs).2 = .ok (m, salt) := by
  rw [SaveVault_eq m pw salt ent fs he]
  exact LoadVault_mkEnv m pw salt (ent.take 12) (by rw [List.length_take]; omega)

/-- C3 witness: the round-trip evaluated at a concrete mapping, password,
salt and entropy pool. -/
theorem c3_witness :
    saltW.length = 16 ∧ 12 ≤ entW.length
      ∧ LoadVault pwW (SaveVault mW pwW saltW entW none).2 = .ok (mW, saltW) :=
  ⟨by decide, by decide,
    c3_save_load_roundtrip mW pwW saltW entW none (by decide) (by decide)⟩

/-- C4: Loading a vault saved with password `pw` using any different
password always fails with the authentication failure
(`failed to decrypt vault`), never returning a decoded mapping. -/
theorem c4_wrong_password_fails (m : Secrets) (pw pw2 : String)
    (salt ent : List Nat) (fs : FileState) (hne : pw2 ≠ pw)
    (he : 12 ≤ ent.length) :
    LoadVault pw2 (SaveVault m pw salt ent fs).2 = .err .decryptFailed := by
  rw [SaveVault_eq m pw salt ent fs he, mkEnv, LoadVault_env]
  rw [gcmOpen_wrong_key (DeriveKey pw salt) (DeriveKey pw2 salt) (ent.take 12)
    (marshalSecrets m) (length_DeriveKey pw salt) (length_DeriveKey pw2 salt)
    (DeriveKey_password_ne pw2 pw salt salt hne)
    (by rw [List.length_take]; omega)]

/-- C4 witness: the wrong-password failure at a concrete input. -/
theorem c4_witness :
    ("wrongpass1" : String) ≠ pwW ∧ 12 ≤ entW.length
      ∧ LoadVault "wrongpass1" (SaveVault mW pwW saltW entW none).2
          = .err .decryptFailed :=
  ⟨by decide, by decide,
    c4_wrong_password_fails mW pwW "wrongpass1" saltW entW none (by decide)
      (by decide)⟩

/-- C5: `DeriveKey` is the Argon2id call with time cost 1, memory cost
64 MiB (65536 KiB), 4 lanes and a 32-byte output; being a pure function of
`(password, salt)`, it is deterministic, and its key is exactly 32 bytes. -/
theorem c5_derive_key_params (pw : String) (salt : List Nat) :
    DeriveKey pw salt = argon2IDKey pw salt 1 (64 * 1024) 4 32
      ∧ (DeriveKey pw salt).length = 32
      ∧ ArgonTime = 1 ∧ ArgonMem = 64 * 1024 ∧ ArgonThreads = 4 ∧ KeySize = 32 :=
  ⟨rfl, length_DeriveKey pw salt, rfl, rfl, rfl, rfl⟩

/-- C10: a well-parsing envelope whose decoded nonce has length 1 makes
`LoadVault` abort (the Go `cipher.gcm.Open` panics on a nonce whose length
differs from 12) instead of returning a typed error. -/
theorem c10_bad_nonce_aborts :
    LoadVault "password123"
        (some (marshalVaultFile
          ⟨1, b64encode (List.range 16), b64encode [0], b64encode [9, 9, 9]⟩))
      = .aborted := by decide

/-- C8: deleting a key that is not in the mapping fails with the not-found
message and leaves the vault file untouched (no save is performed). -/
theorem c8_delete_missing_key (key pw : String) (ent : List Nat)
    (fs : FileState) (m : Secrets) (salt : List Nat)
    (hload : LoadVault pw fs = .ok (m, salt))
    (hmiss : lookupEntry m key = none) :
    cmdDelete key pw ent fs = (.err .notFound, fs) := by
  cases fs with
  | none => simp [LoadVault] at hload
  | some f => simp [cmdDelete, VaultExists, hload, hmiss]

/-- C8 witness: deleting the absent key `zz` from a concrete vault. -/
theorem c8_witness :
    LoadVault pwW fsW1 = .ok (mW, saltW) ∧ lookupEntry mW "zz" = none
      ∧ cmdDelete "zz" pwW entW fsW1 = (.err .notFound, fsW1) :=
  ⟨by decide, by decide,
    c8_delete_missing_key "zz" pwW entW fsW1 mW saltW (by decide) (by decide)⟩

/-- C6: flipping any single bit of the stored salt, nonce or ciphertext
(`data`) field of a validly saved envelope makes `LoadVault` with the
correct password fail with the authentication failure — it never succeeds
with a wrong mapping. -/
theorem c6_bit_flip_detected (m : Secrets) (pw : String) (salt ent : List Nat)
    (fs : FileState) (entRest f : List Nat) (j i : Nat)
    (hs : salt.length = 16) (he : 12 ≤ ent.length)
    (hsave : SaveVault m pw salt ent fs = (.ok entRest, some f)) :
    (j < 16 → LoadVault pw (some (flipSaltField f j i)) = .err .decryptFailed)
    ∧ (j < 12 → LoadVault pw (some (flipNonceField f j i)) = .err .decryptFailed)
    ∧ (j < (gcmSeal (DeriveKey pw salt) (ent.take 12) (marshalSecrets m)).length →
        LoadVault pw (some (flipDataField f j i)) = .err .decryptFailed) := by
  rw [SaveVault_eq m pw salt ent fs he] at hsave
  have hf : f = marshalVaultFile (mkEnv m pw salt (ent.take 12)) :=
    (Option.some.inj (congrArg Prod.snd hsave)).symm
  subst hf
  have hnl : (ent.take 12).length = 12 := by rw [List.length_take]; omega
  have hk := length_DeriveKey pw salt
  refine ⟨?_, ?_, ?_⟩
  · intro hj
    have hflip : flipSaltField (marshalVaultFile (mkEnv m pw salt (ent.take 12))) j i
        = marshalVaultFile ⟨1, b64encode (flipByte salt j i), b64encode (ent.take 12),
            b64encode (gcmSeal (DeriveKey pw salt) (ent.take 12) (marshalSecrets m))⟩ := by
      simp [flipSaltField, unmarshal_marshalVaultFile, mkEnv, b64decode_b64encode]
    rw [hflip, LoadVault_env]
    have hkne : DeriveKey pw (flipByte salt j i) ≠ DeriveKey pw salt := by
      apply DeriveKey_salt_ne pw (flipByte salt j i) salt (flipByte_length salt j i)
      · rw [flipByte_length, hs]; omega
      · exact flipByte_ne salt j i (by omega)
    rw [gcmOpen_wrong_key (DeriveKey pw salt) (DeriveKey pw (flipByte salt j i))
      (ent.take 12) (marshalSecrets m) hk (length_DeriveKey pw (flipByte salt j i))
      hkne hnl]
  · intro hj
    have hflip : flipNonceField (marshalVaultFile (mkEnv m pw salt (ent.take 12))) j i
        = marshalVaultFile ⟨1, b64encode salt, b64encode (flipByte (ent.take 12) j i),
            b64encode (gcmSeal (DeriveKey pw salt) (ent.take 12) (marshalSecrets m))⟩ := by
      simp [flipNonceField, unmarshal_marshalVaultFile, mkEnv, b64decode_b64encode]
    rw [hflip, LoadVault_env]
    rw [gcmOpen_wrong_nonce (DeriveKey pw salt) (ent.take 12)
      (flipByte (ent.take 12) j i) (marshalSecrets m) hk hnl
      (by rw [flipByte_length, hnl])
      (flipByte_ne (ent.take 12) j i (by omega))]
  · intro hj
    have hflip : flipDataField (marshalVaultFile (mkEnv m pw salt (ent.take 12))) j i
        = marshalVaultFile ⟨1, b64encode salt, b64encode (ent.take 12),
            b64encode (flipByte
              (gcmSeal (DeriveKey pw salt) (ent.take 12) (marshalSecrets m)) j i)⟩ := by
      simp [flipDataField, unmarshal_marshalVaultFile, mkEnv, b64decode_b64encode]
    rw [hflip, LoadVault_env]
    rw [gcmOpen_flip (DeriveKey pw salt) (ent.take 12) (marshalSecrets m) j i hk hnl hj]

/-- C6 witness: the three flip cases evaluated on a concrete saved vault,
flipping bit 0 of byte 0 of each field. -/
theorem c6_witness :
    saltW.length = 16 ∧ 12 ≤ entW.length
      ∧ SaveVault mW pwW saltW entW none = (.ok (entW.drop 12), some fW)
      ∧ LoadVault pwW (some (flipSaltField fW 0 0)) = .err .decryptFailed
      ∧ LoadVault pwW (some (flipNonceField fW 0 0)) = .err .decryptFailed
      ∧ LoadVault pwW (some (flipDataField fW 0 0)) = .err .decryptFailed :=
  ⟨by decide, by decide, by decide,
    (c6_bit_flip_detected mW pwW saltW entW none (entW.drop 12) fW 0 0
      (by decide) (by decide) (by decide)).1 (by decide),
    (c6_bit_flip_detected mW pwW saltW entW none (entW.drop 12) fW 0 0
      (by decide) (by decide) (by decide)).2.1 (by decide),
    (c6_bit_flip_detected mW pwW saltW entW none (entW.drop 12) fW 0 0
      (by decide) (by decide) (by decide)).2.2 (by decide)⟩

/-- C7: every save encrypts under the 12-byte nonce freshly drawn from the
random source inside `Encrypt`; saves whose draws differ store different
nonce fields, and the stored envelope (hence its nonce) does not depend on
the file's previous content. -/
theorem c7_fresh_nonce (m : Secrets) (pw : String) (salt ent : List Nat)
    (fs : FileState) (he : 12 ≤ ent.length) :
    SaveVault m pw salt ent fs
        = (.ok (ent.drop 12),
            some (marshalVaultFile (mkEnv m pw salt (ent.take 12))))
      ∧ (ent.take 12).length = 12
      ∧ (∀ (m2 : Secrets) (pw2 : String) (salt2 ent2 : List Nat),
          12 ≤ ent2.length → ent.take 12 ≠ ent2.take 12 →
          (mkEnv m pw salt (ent.take 12)).nonce
            ≠ (mkEnv m2 pw2 salt2 (ent2.take 12)).nonce)
      ∧ (∀ fs2, (SaveVault m pw salt ent fs2).2 = (SaveVault m pw salt ent fs).2) := by
  refine ⟨SaveVault_eq m pw salt ent fs he, by rw [List.length_take]; omega, ?_, ?_⟩
  · intro m2 pw2 salt2 ent2 he2 hne heq
    simp only [mkEnv] at heq
    exact hne (b64encode_inj _ _ heq)
  · intro fs2
    rw [SaveVault_eq m pw salt ent fs he, SaveVault_eq m pw salt ent fs2 he]

/-- C7 witness: concrete saves with different draws store different nonce
fields, and the stored envelope ignores the prior file content. -/
theorem c7_witness :
    12 ≤ entW.length
      ∧ SaveVault mW pwW saltW entW none
          = (.ok (entW.drop 12),
              some (marshalVaultFile (mkEnv mW pwW saltW (entW.take 12))))
      ∧ (entW.take 12).length = 12
      ∧ (mkEnv mW pwW saltW (entW.take 12)).nonce
          ≠ (mkEnv mW pwW saltW (entW2.take 12)).nonce
      ∧ (SaveVault mW pwW saltW entW (some [7])).2
          = (SaveVault mW pwW saltW entW none).2 :=
  ⟨by decide,
    (c7_fresh_nonce mW pwW saltW entW none (by decide)).1,
    (c7_fresh_nonce mW pwW saltW entW none (by decide)).2.1,
    (c7_fresh_nonce mW pwW saltW entW none (by decide)).2.2.1 mW pwW saltW entW2
      (by decide) (by decide),
    (c7_fresh_nonce mW pwW saltW entW none (by decide)).2.2.2 (some [7])⟩

/-- C1 counterexample: with a vault file already present (content `[7]`),
`CreateVault` succeeds and replaces the file — it does not fail with a
vault-already-exists error and does not leave the file untouched. -/
theorem c1_counterexample :
    (CreateVault "password123" (List.range 28) (some [7])).1 = .ok []
      ∧ (CreateVault "password123" (List.range 28) (some [7])).1
          ≠ .err .vaultExists
      ∧ (CreateVault "password123" (List.range 28) (some [7])).2 ≠ some [7] := by
  decide

/-- C1 amended: the existence check lives only in the CLI caller `cmdInit`,
which fails with the vault-already-exists error and leaves the file
untouched; `CreateVault` itself performs no check and overwrites an existing
vault file with a freshly created envelope that does not depend on the old
content. -/
theorem c1_amended_caller_checks (pw confirm : String) (c ent : List Nat) :
    cmdInit pw confirm ent (some c) = (.err .vaultExists, some c)
      ∧ (28 ≤ ent.length →
          CreateVault pw ent (some c)
            = (.ok (ent.drop 28),
                some (marshalVaultFile
                  (mkEnv [] pw (ent.take 16) ((ent.drop 16).take 12))))) := by
  constructor
  · simp [cmdInit, VaultExists]
  · intro he
    have h16 : 16 ≤ ent.length := by omega
    have hgen : GenerateSalt ent = .ok (ent.take 16, ent.drop 16) := by
      simp [GenerateSalt, randRead, SaltSize, h16]
    have he2 : 12 ≤ (ent.drop 16).length := by rw [List.length_drop]; omega
    simp [CreateVault, hgen,
      SaveVault_eq [] pw (ent.take 16) (ent.drop 16) (some c) he2, List.drop_drop]

/-- C1 witness: the amended behavior at a concrete input. -/
theorem c1_witness :
    cmdInit "password123" "password123" (List.range 28) (some [7])
        = (.err .vaultExists, some [7])
      ∧ 28 ≤ (List.range 28).length
      ∧ CreateVault "password123" (List.range 28) (some [7])
          = (.ok ((List.range 28).drop 28),
              some (marshalVaultFile (mkEnv [] "password123"
                ((List.range 28).take 16) (((List.range 28).drop 16).take 12)))) :=
  ⟨(c1_amended_caller_checks "password123" "password123" [7] (List.range 28)).1,
    by decide,
    (c1_amended_caller_checks "password123" "password123" [7] (List.range 28)).2
      (by decide)⟩

/-- C2 counterexample: during a save over a previously valid envelope, the
file passes through the truncated state `some []` — a content that is
neither the old envelope nor the new one and that a concurrent load rejects
as corrupt — so the old envelope is replaced before the save has succeeded
and a half-written file is observable (no write-to-temp-then-rename). -/
theorem c2_counterexample :
    some ([] : List Nat)
        ∈ SaveVaultTrace [("a", "1"), ("b", "2")] "password123" (List.range 16)
            ((List.range 12).map (fun k => k + 50))
            ((SaveVault [("a", "1")] "password123" (List.range 16)
                ((List.range 12).map (fun k => k + 30)) none).2)
      ∧ (SaveVault [("a", "1")] "password123" (List.range 16)
            ((List.range 12).map (fun k => k + 30)) none).2 ≠ some []
      ∧ LoadVault "password123" (some ([] : List Nat)) = .err .parseVaultFailed := by
  decide

/-- C2 amended: a `SaveVault` failure before the filesystem write (an RNG
failure during encryption) leaves the file untouched; on the success path
`os.WriteFile` rewrites the vault path in place, so the observable file
content starts at the prior state, passes through the truncated empty file
and every prefix of the new envelope, and ends with the new envelope —
there is no temporary file and no atomic rename. -/
theorem c2_amended_inplace_write (m : Secrets) (pw : String)
    (salt ent : List Nat) (fs : FileState) :
    (ent.length < 12 → SaveVaultTrace m pw salt ent fs = [fs])
      ∧ (12 ≤ ent.length →
          SaveVaultTrace m pw salt ent fs
              = fs :: writeFileStates (marshalVaultFile (mkEnv m pw salt (ent.take 12)))
            ∧ some ([] : List Nat)
                ∈ writeFileStates (marshalVaultFile (mkEnv m pw salt (ent.take 12)))
            ∧ some (marshalVaultFile (mkEnv m pw salt (ent.take 12)))
                ∈ writeFileStates (marshalVaultFile (mkEnv m pw salt (ent.take 12)))) := by
  constructor
  · exact SaveVaultTrace_err m pw salt ent fs
  · intro he
    refine ⟨SaveVaultTrace_eq m pw salt ent fs he, ?_, ?_⟩
    · rw [writeFileStates]
      exact List.mem_map.2 ⟨0, List.mem_range.2 (by omega), by simp⟩
    · rw [writeFileStates]
      exact List.mem_map.2
        ⟨(marshalVaultFile (mkEnv m pw salt (ent.take 12))).length,
          List.mem_range.2 (by omega), by simp [List.take_length]⟩

/-- C2 witness: both arms of the amended statement at concrete inputs (an
exhausted pool for the failure arm, `entW` for the success arm). -/
theorem c2_witness :
    ([1, 2, 3] : List Nat).length < 12
      ∧ SaveVaultTrace mW pwW saltW [1, 2, 3] none = [none]
      ∧ 12 ≤ entW.length
      ∧ (SaveVaultTrace mW pwW saltW entW none
            = none :: writeFileStates (marshalVaultFile (mkEnv mW pwW saltW (entW.take 12)))
          ∧ some ([] : List Nat)
              ∈ writeFileStates (marshalVaultFile (mkEnv mW pwW saltW (entW.take 12)))
          ∧ some (marshalVaultFile (mkEnv mW pwW saltW (entW.take 12)))
              ∈ writeFileStates (marshalVaultFile (mkEnv mW pwW saltW (entW.take 12)))) :=
  ⟨by decide,
    (c2_amended_inplace_write mW pwW saltW [1, 2, 3] none).1 (by decide),
    by decide,
    (c2_amended_inplace_write mW pwW saltW entW none).2 (by decide)⟩

/-- C9 counterexample: starting from a fresh vault, the CLI `set` command
with the empty-string key succeeds, and the resulting reachable vault state
maps the empty key to the stored value — the non-empty-key invariant fails. -/
theorem c9_counterexample :
    LoadVault "password123"
        ((cmdSet "" "password123" "topsecret" ((List.range 12).map (fun k => k + 50))
          ((CreateVault "password123" (List.range 28) none).2)).2)
      = .ok ([("", "topsecret")], List.range 16) := by
  decide

/-- C9 amended: the `set` operation stores exactly the key it is given with
no validation — for every key, including the empty string, the saved vault
maps that key to the supplied value. -/
theorem c9_amended_set_unvalidated (key pw value : String) (ent : List Nat)
    (fs : FileState) (m : Secrets) (salt : List Nat)
    (hload : LoadVault pw fs = .ok (m, salt)) (he : 12 ≤ ent.length) :
    cmdSet key pw value ent fs
        = (.ok (ent.drop 12),
            some (marshalVaultFile (mkEnv (setEntry m key value) pw salt (ent.take 12))))
      ∧ lookupEntry (setEntry m key value) key = some value := by
  constructor
  · cases fs with
    | none => simp [LoadVault] at hload
    | some f =>
        simp [cmdSet, VaultExists, hload,
          SaveVault_eq (setEntry m key value) pw salt ent (some f) he]
  · exact lookupEntry_setEntry m key value

/-- C9 witness: the amended statement applied with the empty-string key on a
concrete unlocked vault. -/
theorem c9_witness :
    LoadVault pwW fsW = .ok ([], saltW) ∧ 12 ≤ entW2.length
      ∧ (cmdSet "" pwW "topsecret" entW2 fsW
            = (.ok (entW2.drop 12),
                some (marshalVaultFile (mkEnv (setEntry [] "" "topsecret") pwW saltW
                  (entW2.take 12))))
          ∧ lookupEntry (setEntry [] "" "topsecret") "" = some "topsecret") :=
  ⟨by decide, by decide,
    c9_amended_set_unvalidated "" pwW "topsecret" entW2 fsW [] saltW (by decide)
      (by decide)⟩
